import Mathlib

/-!
Shallow embedding of `src/main.ts` of the obsidian-tikzjax plugin:
source normalization and preamble merge (`tidyTikzSource`), the preamble
resolver (`findPreambleFile`), the diagnostic log classifier
(`showBufferedLogs`), and the debounced feed (`checkForTikzError`).
Text is modelled as `List Char`; JavaScript string operations
(`trim`, `split("\n")`, `replaceAll`, `includes`, regex tests anchored
with `^`) are modelled by explicit executable functions below.
-/

/-- Text: a JavaScript string as its list of characters. -/
abbrev Str := List Char

/-- Helper to write concrete text values. -/
def str (s : String) : Str := s.data

/-- The whitespace class used by JavaScript `trim` and `\s`
(ASCII whitespace plus NBSP and BOM). -/
def isWsChar (c : Char) : Bool :=
  c = ' ' || c = '\t' || c = '\n' || c = '\r' ||
  c = '\x0b' || c = '\x0c' || c = ' ' || c = '﻿'

/-- JavaScript `String.prototype.trim`: drop whitespace at both ends. -/
def trimChars (l : Str) : Str :=
  ((l.dropWhile isWsChar).reverse.dropWhile isWsChar).reverse

/-- JavaScript `s.split("\n")`: `"" ↦ [""]`, separators delimit pieces. -/
def splitOnNl : Str → List Str
  | [] => [[]]
  | c :: rest =>
    if c = '\n' then [] :: splitOnNl rest
    else
      match splitOnNl rest with
      | [] => [[c]]
      | l :: ls => (c :: l) :: ls

/-- JavaScript `lines.join("\n")`. -/
def joinNl : List Str → Str
  | [] => []
  | [l] => l
  | l :: l₂ :: ls => l ++ '\n' :: joinNl (l₂ :: ls)

/-- JavaScript `Array.prototype.findIndex` (with `-1` modelled as `none`):
the index of the first element satisfying `p`. -/
def findIndexOpt (p : Str → Bool) : List Str → Option Nat
  | [] => none
  | l :: ls => if p l then some 0 else (findIndexOpt p ls).map (· + 1)

/-- Whether `a` begins `b` (character-wise). -/
def isPre : Str → Str → Bool
  | [], _ => true
  | _ :: _, [] => false
  | a :: as, b :: bs => a = b && isPre as bs

/-- JavaScript `b.includes(a)`: `a` occurs somewhere in `b`. -/
def occurs (pat : Str) : Str → Bool
  | [] => isPre pat []
  | l@(_ :: rest) => isPre pat l || occurs pat rest

/-- One fuel-indexed pass of JavaScript
`s.replaceAll(pat, "")`: scan left to right, on a match resume right
after the matched occurrence (matched text is never rescanned). -/
def removeAllFuel (pat : Str) : Nat → Str → Str
  | _, [] => []
  | 0, l => l
  | fuel + 1, c :: rest =>
    if pat ≠ [] && isPre pat (c :: rest) then
      removeAllFuel pat fuel (rest.drop (pat.length - 1))
    else
      c :: removeAllFuel pat fuel rest

/-- JavaScript `s.replaceAll(pat, "")` (for nonempty `pat`). -/
def removeAll (pat l : Str) : Str := removeAllFuel pat l.length l

/-! ## Source normalization and preamble merge (`tidyTikzSource`) -/

/-- The `&nbsp;` escape sequence removed by normalization. -/
def nbspSeq : Str := str "&nbsp;"

/-- Split into lines, trim every line, drop lines empty after trimming
(the line pipeline inside `tidyTikzSource`). -/
def normLines (s : Str) : List Str :=
  ((splitOnNl s).map trimChars).filter (fun l => !l.isEmpty)

/-- The test `line.includes('\begin{document}')`. -/
def containsBeginDocument (l : Str) : Bool := occurs (str "\\begin{document}") l

/-- The preamble-side line pipeline of `tidyTikzSource`:
`preamble.trim().split("\n").map(line => line.trim()).filter(line => line)`. -/
def preambleLinesOf (preamble : Str) : List Str :=
  ((splitOnNl (trimChars preamble)).map trimChars).filter (fun l => !l.isEmpty)

/-- Function `tidyTikzSource(tikzSource, preamble)`: remove `&nbsp;`, split/trim/drop
empty lines, splice the (trimmed, re-split, trimmed, nonempty) preamble lines
before the first line containing `\begin{document}` (or before everything if
no such line), and rejoin with newlines. -/
def tidyTikzSource (tikzSource : Str) (preamble : Str) : Str :=
  let lines := normLines (removeAll nbspSeq tikzSource)
  if !(trimChars preamble).isEmpty then
    let preambleLines := preambleLinesOf preamble
    match findIndexOpt containsBeginDocument lines with
    | some documentIndex =>
      joinNl (lines.take documentIndex ++ preambleLines ++ lines.drop documentIndex)
    | none => joinNl (preambleLines ++ lines)
  else
    joinNl lines

/-! ## Preamble resolver (`findPreambleFile`) -/

/-- Directory of a path: the part before the last `/`, or empty when the
path has no `/` (mirrors both the initial `currentDir` computation and the
parent-directory step of `findPreambleFile`). -/
def parentDir (p : Str) : Str :=
  if p.contains '/' then ((p.reverse.dropWhile (fun c => c ≠ '/')).drop 1).reverse
  else []

/-- Candidate path construction: the filename under `currentDir`, or the
bare filename at the root (empty directory). -/
def joinPath (dir fname : Str) : Str :=
  if dir.isEmpty then fname else dir ++ '/' :: fname

/-- The fixed candidate filename list, in priority order. -/
def preambleFilenames : List Str :=
  [str ".tikz-preamble.tex", str ".tikz-preamble", str "tikz-preamble.tex"]

/-- One directory scan: the filenames are tried sequentially and the first
whose vault lookup returns content wins (a lookup failure is `none`). -/
def tryDir (vault : Str → Option Str) (dir : Str) : Option Str :=
  preambleFilenames.findSome? (fun filename => vault (joinPath dir filename))

/-- The `while (searchCount < 10)` loop of `findPreambleFile`, with the
remaining iteration count as fuel: scan the current directory, stop at the
root (empty directory) after scanning it, otherwise ascend. -/
def findLoop (vault : Str → Option Str) : Nat → Str → Str
  | 0, _ => []
  | fuel + 1, currentDir =>
    match tryDir vault currentDir with
    | some content => content
    | none =>
      if currentDir.isEmpty then []
      else findLoop vault fuel (parentDir currentDir)

/-- Resolver `findPreambleFile(sourcePath)` over an abstract vault lookup:
empty path resolves to the empty fragment, otherwise search from the
document's directory root-ward, at most 10 directories. -/
def findPreambleFile (vault : Str → Option Str) (sourcePath : Str) : Str :=
  if sourcePath.isEmpty then []
  else findLoop vault 10 (parentDir sourcePath)

/-! ## Diagnostic classifier (`showBufferedLogs`) -/

/-- Class `\w` of JavaScript together with the extra characters of the class
`[\w\-\.]` used by the file-load pattern. -/
def fileWordChar (c : Char) : Bool :=
  c.isAlphanum || c = '_' || c = '-' || c = '.'

/-- The class `[\s\(\)\"]` that may precede a file name. -/
def fileSkipChar (c : Char) : Bool :=
  isWsChar c || c = '(' || c = ')' || c = '"'

/-- Pattern `\.(?:tex|sty|code\.tex)` matches here. -/
def extHere (l : Str) : Bool :=
  isPre (str ".tex") l || isPre (str ".sty") l || isPre (str ".code.tex") l

/-- Pattern `[\w\-\.]+\.(?:tex|sty|code\.tex)` matches at the front: at least one
word-class character, then an extension (with regex backtracking: any
nonempty word-class run followed by an extension succeeds). -/
def wordThenExt : Str → Bool
  | [] => false
  | c :: rest => fileWordChar c && (extHere rest || wordThenExt rest)

/-- Test `/^[\s\(\)\"]*[\w\-\.]+\.(?:tex|sty|code\.tex)/.test(trimmed)`:
the skip class and the word class are disjoint, so the leading `*` must
consume exactly the maximal skip-class run. -/
def fileLoadPat (l : Str) : Bool := wordThenExt (l.dropWhile fileSkipChar)

/-- Test `/^This is e-TeX|^LaTeX2e|^\*\*entering extended mode|^\(input\.tex$|^For additional information/.test(trimmed)`
(only the `(input.tex` alternative is anchored at both ends). -/
def startupPat (l : Str) : Bool :=
  isPre (str "This is e-TeX") l || isPre (str "LaTeX2e") l ||
  isPre (str "**entering extended mode") l || l = str "(input.tex" ||
  isPre (str "For additional information") l

/-- Test `/^\s*\.{3,}\s*$|^\s*$/.test(trimmed)`: all whitespace, or whitespace
around a run of at least three dots. -/
def dotsOrBlankPat (l : Str) : Bool :=
  (let m := l.dropWhile isWsChar
   ((m.takeWhile (fun c => c = '.')).length ≥ 3 : Bool) &&
     (m.dropWhile (fun c => c = '.')).all isWsChar) ||
  l.all isWsChar

/-- The `shouldSkip` disjunction of the `preamble_normal` branch. -/
def shouldSkip (trimmed : Str) : Bool :=
  (fileLoadPat trimmed && !isPre (str "!") trimmed) ||
  startupPat trimmed || dotsOrBlankPat trimmed

/-- The `isNormalDocument` test: `/^No file input\.aux\./`, `/^ABD:/`, `/^\("input\.aux"\)/`. -/
def isNormalDocument (trimmed : Str) : Bool :=
  isPre (str "No file input.aux.") trimmed || isPre (str "ABD:") trimmed ||
  isPre (str "(\"input.aux\")") trimmed

/-- The classifier's `LogState`. -/
inductive LogState where
  | preamble_normal
  | preamble_error
  | document_normal
  | document_error
deriving DecidableEq, Repr

/-- The `errorPhase` values (besides `null`). -/
inductive Phase where
  | preamble
  | document
deriving DecidableEq, Repr

/-- The mutable locals of the classification loop of `showBufferedLogs`. -/
structure ClassAcc where
  state : LogState
  filteredMessages : List Str
  errorPhase : Option Phase
deriving DecidableEq, Repr

/-- One iteration of the `for (const message of this.tikzLogBuffer)` loop. -/
def processLine (acc : ClassAcc) (message : Str) : ClassAcc :=
  let trimmed := trimChars message
  match acc.state with
  | .preamble_normal =>
    if shouldSkip trimmed then acc
    else if isNormalDocument trimmed then { acc with state := .document_normal }
    else
      { state := .preamble_error,
        filteredMessages := acc.filteredMessages ++ [message],
        errorPhase := some (acc.errorPhase.getD .preamble) }
  | .document_normal =>
    if isNormalDocument trimmed then acc
    else
      { state := .document_error,
        filteredMessages := acc.filteredMessages ++ [message],
        errorPhase := some (acc.errorPhase.getD .document) }
  | .preamble_error =>
    { acc with filteredMessages := acc.filteredMessages ++ [message] }
  | .document_error =>
    { acc with filteredMessages := acc.filteredMessages ++ [message] }

/-- The initial classifier state at buffer creation. -/
def initAcc : ClassAcc := ⟨.preamble_normal, [], none⟩

/-- Classify a whole buffer in arrival order. -/
def processBuffer (buffer : List Str) : ClassAcc := buffer.foldl processLine initAcc

/-- The error surface produced by a flush: the phase, the title chosen from
it, and the joined retained lines. -/
structure Report where
  errorPhase : Option Phase
  title : Str
  body : Str
deriving DecidableEq, Repr

/-- The phase-dependent `titleText`. -/
def titleFor : Option Phase → Str
  | some .preamble => str "LaTeX Preamble Error (before \\begin{document})"
  | some .document => str "LaTeX Document Error (after \\begin{document})"
  | none => str "TikZJax Log"

/-- Flush `showBufferedLogs()`: inputs are the buffer and whether
`currentTikzElement` is set; outputs the report (if any) and the buffer
afterwards. Early return on empty buffer or missing target; early return
(buffer kept) when no message was retained; otherwise a report is created
and the buffer is cleared. -/
def showBufferedLogs (buffer : List Str) (hasCurrentElement : Bool) :
    Option Report × List Str :=
  if buffer.isEmpty || !hasCurrentElement then (none, buffer)
  else
    let acc := processBuffer buffer
    if acc.filteredMessages.isEmpty then (none, buffer)
    else
      (some ⟨acc.errorPhase, titleFor acc.errorPhase, joinNl acc.filteredMessages⟩, [])

/-! ## Debounced feed (`checkForTikzError` / `clearLogBuffer`) -/

/-- The quiet period of the debounce, in milliseconds. -/
def quietMs : Nat := 1000

/-- The plugin state touched by the feed path: the buffer, the armed
single-shot timer (its absolute deadline), and how many flushes have fired. -/
structure DebounceState where
  buffer : List Str
  timer : Option Nat
  flushes : Nat
deriving DecidableEq, Repr

/-- Let time advance to instant `t`: a pending timer whose deadline has
passed fires (one flush) and disarms. -/
def advanceTo (s : DebounceState) (t : Nat) : DebounceState :=
  match s.timer with
  | some deadline =>
    if deadline ≤ t then { s with timer := none, flushes := s.flushes + 1 }
    else s
  | none => s

/-- Feed `checkForTikzError(message)` called at instant `t`: append the message,
cancel any pending timer (`clearTimeout`) and arm a fresh single-shot timer
for `t + 1000` (`setTimeout(..., 1000)`). -/
def checkForTikzError (s : DebounceState) (t : Nat) (message : Str) : DebounceState :=
  let s := advanceTo s t
  { buffer := s.buffer ++ [message], timer := some (t + quietMs), flushes := s.flushes }

/-- Feed a time-stamped event sequence from the idle state. -/
def runFeeds (events : List (Nat × Str)) : DebounceState :=
  events.foldl (fun s e => checkForTikzError s e.1 e.2) ⟨[], none, 0⟩

/-- Let time run out after the last feed: a still-armed timer fires. -/
def settle (s : DebounceState) : DebounceState :=
  match s.timer with
  | some _ => { s with timer := none, flushes := s.flushes + 1 }
  | none => s

/-- Reset `clearLogBuffer()`: empty the buffer and cancel any pending timer. -/
def clearLogBuffer (s : DebounceState) : DebounceState :=
  { s with buffer := [], timer := none }

/-! ## Theorems -/

/-- A classifier state is an error state. -/
def isErrorState : LogState → Bool
  | .preamble_error => true
  | .document_error => true
  | .preamble_normal => false
  | .document_normal => false

/-- C1 (counterexample): on a buffer consisting solely of a recognized
benign preamble line, with a render target set, the flush retains zero
lines and produces no report, but the log buffer is NOT cleared: the code
returns before the clearing statement, so the buffer keeps its line. -/
theorem flush_zero_retained_keeps_buffer_cex :
    (processBuffer [str "LaTeX2e <2023-11-01>"]).filteredMessages = [] ∧
    showBufferedLogs [str "LaTeX2e <2023-11-01>"] true =
      (none, [str "LaTeX2e <2023-11-01>"]) ∧
    [str "LaTeX2e <2023-11-01>"] ≠ ([] : List Str) := by decide

/-- C1 (amended): for every flush in which, after processing the whole
buffer through the state machine, zero lines were retained, no report is
produced and the log buffer is left unchanged (it is cleared only later,
when a new render begins or a subsequent flush retains lines). -/
theorem flush_zero_retained_no_report_buffer_kept
    (buffer : List Str) (hasCurrentElement : Bool)
    (h : (processBuffer buffer).filteredMessages = []) :
    showBufferedLogs buffer hasCurrentElement = (none, buffer) := by
  unfold showBufferedLogs
  split
  · rfl
  · simp only [h, List.isEmpty_nil, if_true]

/-- C1 (witness for the amended theorem). -/
theorem flush_zero_retained_no_report_buffer_kept_witness :
    showBufferedLogs [str "This is e-TeX, Version 3.141592653"] true =
      (none, [str "This is e-TeX, Version 3.141592653"]) :=
  flush_zero_retained_no_report_buffer_kept
    [str "This is e-TeX, Version 3.141592653"] true (by decide)

/-- C2: the classifier state is monotonic: from `preamble_normal` one step
reaches only `preamble_normal`, `document_normal` or `preamble_error`; from
`document_normal` only `document_normal` or `document_error`; an error
state is never left, neither in one step nor over any remaining suffix of
the buffer. -/
theorem classifier_monotonic :
    (∀ (acc : ClassAcc) (m : Str), acc.state = .preamble_normal →
      (processLine acc m).state = .preamble_normal ∨
      (processLine acc m).state = .document_normal ∨
      (processLine acc m).state = .preamble_error) ∧
    (∀ (acc : ClassAcc) (m : Str), acc.state = .document_normal →
      (processLine acc m).state = .document_normal ∨
      (processLine acc m).state = .document_error) ∧
    (∀ (acc : ClassAcc) (m : Str), isErrorState acc.state = true →
      (processLine acc m).state = acc.state) ∧
    (∀ (buffer : List Str) (acc : ClassAcc), isErrorState acc.state = true →
      isErrorState ((buffer.foldl processLine acc).state) = true) := by
  have step : ∀ (acc : ClassAcc) (m : Str), isErrorState acc.state = true →
      (processLine acc m).state = acc.state := by
    intro acc m h
    unfold processLine
    cases hs : acc.state <;> simp [hs, isErrorState] at h ⊢
  refine ⟨?_, ?_, step, ?_⟩
  · intro acc m h
    unfold processLine
    rw [h]
    by_cases h₁ : shouldSkip (trimChars m) <;>
      by_cases h₂ : isNormalDocument (trimChars m) <;> simp [h₁, h₂, h]
  · intro acc m h
    unfold processLine
    rw [h]
    by_cases h₂ : isNormalDocument (trimChars m) <;> simp [h₂, h]
  · intro buffer
    induction buffer with
    | nil => intro acc h; simpa using h
    | cons m rest ih =>
      intro acc h
      simp only [List.foldl_cons]
      exact ih _ (by rw [step acc m h]; exact h)

/-- C2 (witness): the monotonicity facts applied at concrete states. -/
theorem classifier_monotonic_witness :
    ((processLine initAcc (str "! err")).state = .preamble_normal ∨
     (processLine initAcc (str "! err")).state = .document_normal ∨
     (processLine initAcc (str "! err")).state = .preamble_error) ∧
    ((processLine ⟨.document_normal, [], none⟩ (str "! err")).state = .document_normal ∨
     (processLine ⟨.document_normal, [], none⟩ (str "! err")).state = .document_error) ∧
    (processLine ⟨.preamble_error, [], some .preamble⟩ (str "ok")).state =
      LogState.preamble_error ∧
    isErrorState (([str "ABD: ok"].foldl processLine
      ⟨.document_error, [], some .document⟩).state) = true :=
  ⟨classifier_monotonic.1 initAcc (str "! err") rfl,
   classifier_monotonic.2.1 ⟨.document_normal, [], none⟩ (str "! err") rfl,
   classifier_monotonic.2.2.1 ⟨.preamble_error, [], some .preamble⟩ (str "ok") (by decide),
   classifier_monotonic.2.2.2 [str "ABD: ok"] ⟨.document_error, [], some .document⟩
     (by decide)⟩

/-- C3: on the buffer `["This is e-TeX...", "mystyle.sty",
"! Undefined control sequence.", "l.12 \foo"]` one flush classifies with
ErrorPhase `preamble` and retains exactly the two error-context lines,
joined with a newline; the two benign lines are skipped. -/
theorem classifier_preamble_scenario :
    processBuffer
        [str "This is e-TeX...", str "mystyle.sty",
         str "! Undefined control sequence.", str "l.12 \\foo"] =
      ⟨.preamble_error,
       [str "! Undefined control sequence.", str "l.12 \\foo"], some .preamble⟩ ∧
    showBufferedLogs
        [str "This is e-TeX...", str "mystyle.sty",
         str "! Undefined control sequence.", str "l.12 \\foo"] true =
      (some ⟨some .preamble, titleFor (some .preamble),
             str "! Undefined control sequence.\nl.12 \\foo"⟩, []) := by decide

/-- C9: normalization removes `&nbsp;`, splits into lines, trims each line,
drops empty lines, and rejoins with newlines; on the concrete input
`"  \begin{tikzpicture}\n\draw (0,0) -- (1,1);\n&nbsp;\n  "` with no
preamble it yields `"\begin{tikzpicture}\n\draw (0,0) -- (1,1);"`. -/
theorem normalize_scenario :
    tidyTikzSource (str "  \\begin{tikzpicture}\n\\draw (0,0) -- (1,1);\n&nbsp;\n  ") [] =
      str "\\begin{tikzpicture}\n\\draw (0,0) -- (1,1);" ∧
    (∀ x : Str, tidyTikzSource x [] =
      joinNl (((splitOnNl (removeAll nbspSeq x)).map trimChars).filter
        (fun l => !l.isEmpty))) := by
  refine ⟨by decide, fun x => rfl⟩

/-- One unfolding of the search loop. -/
theorem findLoop_succ (vault : Str → Option Str) (fuel : Nat) (dir : Str) :
    findLoop vault (fuel + 1) dir =
      match tryDir vault dir with
      | some content => content
      | none => if dir.isEmpty then [] else findLoop vault fuel (parentDir dir) := rfl

/-- A directory scan that hits ends the search with its content. -/
theorem findLoop_found {vault : Str → Option Str} (fuel : Nat) {dir c : Str}
    (h : tryDir vault dir = some c) : findLoop vault (fuel + 1) dir = c := by
  rw [findLoop_succ, h]

/-- A directory scan that misses, away from the root, ascends. -/
theorem findLoop_miss {vault : Str → Option Str} {fuel : Nat} {dir : Str}
    (h : tryDir vault dir = none) (hdir : dir.isEmpty = false) :
    findLoop vault (fuel + 1) dir = findLoop vault fuel (parentDir dir) := by
  rw [findLoop_succ, h]
  simp [hdir]

/-- When every directory scan misses, any amount of fuel yields the empty
fragment. -/
theorem findLoop_all_miss {vault : Str → Option Str}
    (h : ∀ dir, tryDir vault dir = none) :
    ∀ (fuel : Nat) (dir : Str), findLoop vault fuel dir = [] := by
  intro fuel
  induction fuel with
  | zero => intro dir; rfl
  | succ n ih =>
    intro dir
    rw [findLoop_succ, h dir]
    cases hdir : dir.isEmpty <;> simp [hdir, ih]

/-- C5: the candidate filenames are tried sequentially in priority order at
the document's directory, and the first whose lookup returns content is
returned immediately: whenever candidate `k` has content there and all
higher-priority candidates have none, the resolver returns candidate `k`'s
content, regardless of lower-priority candidates there and of any match in
a parent directory. -/
theorem resolver_priority (vault : Str → Option Str) (sourcePath c : Str)
    (k : Nat) (hk3 : k < 3)
    (hsp : sourcePath.isEmpty = false)
    (hprev : ∀ j, j < k →
      vault (joinPath (parentDir sourcePath) (preambleFilenames.getD j [])) = none)
    (hk : vault (joinPath (parentDir sourcePath) (preambleFilenames.getD k [])) = some c) :
    findPreambleFile vault sourcePath = c := by
  have htry : tryDir vault (parentDir sourcePath) = some c := by
    unfold tryDir
    rcases k with _ | _ | _ | k
    · simp only [preambleFilenames, List.getD_cons_zero] at hk
      simp [preambleFilenames, List.findSome?_cons, hk]
    · have h0 := hprev 0 (by omega)
      simp only [preambleFilenames, List.getD_cons_zero, List.getD_cons_succ] at hk h0
      simp [preambleFilenames, List.findSome?_cons, hk, h0]
    · have h0 := hprev 0 (by omega)
      have h1 := hprev 1 (by omega)
      simp only [preambleFilenames, List.getD_cons_zero, List.getD_cons_succ] at hk h0 h1
      simp [preambleFilenames, List.findSome?_cons, hk, h0, h1]
    · omega
  unfold findPreambleFile
  rw [hsp]
  simpa using findLoop_found 9 htry

/-- C5 (witness): `.tikz-preamble` (priority 1) present in the document's
directory wins while `.tikz-preamble.tex` (priority 0) is absent. -/
theorem resolver_priority_witness :
    findPreambleFile
      (fun p => if p = str "a/.tikz-preamble" then some (str "HIT")
                else if p = str "a/tikz-preamble.tex" then some (str "LOSER")
                else none)
      (str "a/b.md") = str "HIT" :=
  resolver_priority _ _ _ 1 (by omega) (by decide)
    (by intro j hj; interval_cases j; decide) (by decide)

/-- C6: the resolver starts at the document's directory and ascends parent
by parent: a match two levels up is found when the two nearer directories
have none; when no directory has a match the resolver returns the empty
fragment; and the ascent is capped at 10 directories, so a root-level match
under a document 11 directories deep is never reached and the empty
fragment is returned. -/
theorem resolver_ascent_and_termination :
    (∀ (vault : Str → Option Str) (sourcePath c : Str),
       sourcePath.isEmpty = false →
       (parentDir sourcePath).isEmpty = false →
       (parentDir (parentDir sourcePath)).isEmpty = false →
       tryDir vault (parentDir sourcePath) = none →
       tryDir vault (parentDir (parentDir sourcePath)) = none →
       tryDir vault (parentDir (parentDir (parentDir sourcePath))) = some c →
       findPreambleFile vault sourcePath = c) ∧
    (∀ (vault : Str → Option Str) (sourcePath : Str),
       (∀ dir, tryDir vault dir = none) → findPreambleFile vault sourcePath = []) ∧
    findPreambleFile
      (fun p => if p = str ".tikz-preamble.tex" then some (str "ROOT") else none)
      (str "a/b/c/d/e/f/g/h/i/j/k/l.md") = [] := by
  refine ⟨?_, ?_, by decide⟩
  · intro vault sourcePath c hsp h0 h1 m0 m1 hit
    unfold findPreambleFile
    rw [hsp]
    simp only [Bool.false_eq_true, if_false]
    rw [show (10 : Nat) = 9 + 1 from rfl, findLoop_miss m0 h0,
        show (9 : Nat) = 8 + 1 from rfl, findLoop_miss m1 h1,
        show (8 : Nat) = 7 + 1 from rfl, findLoop_found 7 hit]
  · intro vault sourcePath h
    unfold findPreambleFile
    cases hsp : sourcePath.isEmpty <;> simp [findLoop_all_miss h]

/-- C6 (witness): a match exactly two levels above the document's directory
is found; a vault with no preamble file anywhere resolves to empty. -/
theorem resolver_ascent_and_termination_witness :
    findPreambleFile
      (fun p => if p = str "a/.tikz-preamble.tex" then some (str "TWO-UP") else none)
      (str "a/b/c/x.md") = str "TWO-UP" ∧
    findPreambleFile (fun _ => none) (str "x.md") = [] :=
  ⟨resolver_ascent_and_termination.1 _ _ _ (by decide) (by decide) (by decide)
     (by decide) (by decide) (by decide),
   resolver_ascent_and_termination.2.1 _ _ (fun _ => rfl)⟩

/-- Function `findIndexOpt` misses on a list with no satisfying element. -/
theorem findIndexOpt_none (p : Str → Bool) :
    ∀ L : List Str, (∀ l ∈ L, p l = false) → findIndexOpt p L = none := by
  intro L
  induction L with
  | nil => intro _; rfl
  | cons l ls ih =>
    intro h
    unfold findIndexOpt
    rw [h l (by simp), ih (fun x hx => h x (by simp [hx]))]
    rfl

/-- Function `findIndexOpt` on a decomposition around the first satisfying element
returns that element's index. -/
theorem findIndexOpt_split (p : Str → Bool) :
    ∀ (A : List Str) (b : Str) (B : List Str), (∀ l ∈ A, p l = false) → p b = true →
      findIndexOpt p (A ++ b :: B) = some A.length := by
  intro A
  induction A with
  | nil => intro b B _ hb; simp [findIndexOpt, hb]
  | cons a as ih =>
    intro b B hA hb
    have ha : p a = false := hA a (by simp)
    have hrest := ih b B (fun x hx => hA x (by simp [hx])) hb
    simp [findIndexOpt, ha, hrest]

/-- C7: with a nonempty (after trim) preamble fragment, `tidyTikzSource`
splices the fragment's lines (trimmed, empties dropped, order kept as the
block `preambleLinesOf pre`) immediately before the first normalized source
line containing `\begin{document}`; when no source line contains the
marker, the fragment lines are prepended before all source lines. -/
theorem merge_placement (src pre : Str) (hpre : (trimChars pre).isEmpty = false) :
    (∀ (A : List Str) (b : Str) (B : List Str),
       normLines (removeAll nbspSeq src) = A ++ b :: B →
       (∀ l ∈ A, containsBeginDocument l = false) →
       containsBeginDocument b = true →
       tidyTikzSource src pre = joinNl (A ++ preambleLinesOf pre ++ b :: B)) ∧
    ((∀ l ∈ normLines (removeAll nbspSeq src), containsBeginDocument l = false) →
       tidyTikzSource src pre = joinNl (preambleLinesOf pre ++ normLines (removeAll nbspSeq src))) := by
  constructor
  · intro A b B hsplit hA hb
    unfold tidyTikzSource
    simp only [hpre, Bool.not_false, if_true, hsplit,
      findIndexOpt_split containsBeginDocument A b B hA hb,
      List.take_left, List.drop_left]
  · intro hnone
    unfold tidyTikzSource
    simp only [hpre, Bool.not_false, if_true,
      findIndexOpt_none containsBeginDocument _ hnone]

/-- C7 (witness): splice before a marker line, and prepend when the marker
is absent. -/
theorem merge_placement_witness :
    tidyTikzSource (str "\\usepackage{a}\n\\begin{document}\nx") (str "p1\np2") =
      joinNl ([str "\\usepackage{a}"] ++ preambleLinesOf (str "p1\np2") ++
        [str "\\begin{document}", str "x"]) ∧
    tidyTikzSource (str "x\ny") (str "p1\np2") =
      joinNl (preambleLinesOf (str "p1\np2") ++
        normLines (removeAll nbspSeq (str "x\ny"))) :=
  ⟨(merge_placement (str "\\usepackage{a}\n\\begin{document}\nx") (str "p1\np2")
      (by decide)).1
      [str "\\usepackage{a}"] (str "\\begin{document}") [str "x"]
      (by decide) (by decide) (by decide),
   (merge_placement (str "x\ny") (str "p1\np2") (by decide)).2 (by decide)⟩

/-- The instant of the last event of a burst (default: the given instant). -/
def lastInstant (t : Nat) : List (Nat × Str) → Nat
  | [] => t
  | e :: es => lastInstant e.1 es

/-- Function `lastInstant` shifts along the burst. -/
theorem lastInstant_cons (t t₂ : Nat) (m₂ : Str) (rest : List (Nat × Str)) :
    lastInstant t ((t₂, m₂) :: rest) = lastInstant t₂ rest := rfl

/-- Feeding a burst whose gaps stay below the quiet threshold, starting with
an armed timer whose deadline has not yet been reached, fires no flush,
appends every line in order, and leaves the timer armed for the last feed's
deadline. -/
theorem runFeeds_go (rest : List (Nat × Str)) :
    ∀ (buf : List Str) (fl tprev : Nat),
      (∀ e ∈ rest.head?, e.1 < tprev + quietMs) →
      List.Chain' (fun a b => b.1 < a.1 + quietMs) rest →
      rest.foldl (fun s e => checkForTikzError s e.1 e.2)
          ⟨buf, some (tprev + quietMs), fl⟩ =
        ⟨buf ++ rest.map Prod.snd, some (lastInstant tprev rest + quietMs), fl⟩ := by
  induction rest with
  | nil => intro buf fl tprev _ _; simp [lastInstant]
  | cons e es ih =>
    obtain ⟨t₂, m₂⟩ := e
    intro buf fl tprev hhead hchain
    have ht₂ : t₂ < tprev + quietMs := hhead (t₂, m₂) rfl
    have hstep : checkForTikzError ⟨buf, some (tprev + quietMs), fl⟩ t₂ m₂ =
        ⟨buf ++ [m₂], some (t₂ + quietMs), fl⟩ := by
      unfold checkForTikzError advanceTo
      simp [Nat.not_le.mpr ht₂]
    rcases List.chain'_cons'.mp hchain with ⟨hh, hc⟩
    rw [List.foldl_cons, hstep, ih (buf ++ [m₂]) fl t₂ hh hc, lastInstant_cons]
    simp

/-- C4: a burst of feed calls whose inter-arrival gaps are all below the
quiet threshold produces no flush while it lasts — each feed appends its
line and replaces the previously armed single-shot timer — and exactly one
flush fires, at one threshold after the last feed; moreover every feed
leaves exactly one armed timer, with deadline one threshold after itself. -/
theorem debounce_coalescing :
    (∀ (t : Nat) (m : Str) (rest : List (Nat × Str)),
      List.Chain' (fun a b => b.1 < a.1 + quietMs) ((t, m) :: rest) →
      (runFeeds ((t, m) :: rest)).flushes = 0 ∧
      (runFeeds ((t, m) :: rest)).buffer = ((t, m) :: rest).map Prod.snd ∧
      (runFeeds ((t, m) :: rest)).timer = some (lastInstant t rest + quietMs) ∧
      (settle (runFeeds ((t, m) :: rest))).flushes = 1) ∧
    (∀ (s : DebounceState) (t : Nat) (m : Str),
      (checkForTikzError s t m).buffer = (advanceTo s t).buffer ++ [m] ∧
      (checkForTikzError s t m).timer = some (t + quietMs)) := by
  constructor
  · intro t m rest hchain
    rcases List.chain'_cons'.mp hchain with ⟨hh, hc⟩
    have hrun : runFeeds ((t, m) :: rest) =
        ⟨m :: rest.map Prod.snd, some (lastInstant t rest + quietMs), 0⟩ := by
      unfold runFeeds
      rw [List.foldl_cons]
      have hfirst : checkForTikzError ⟨[], none, 0⟩ t m =
          ⟨[m], some (t + quietMs), 0⟩ := rfl
      rw [hfirst, runFeeds_go rest [m] 0 t hh hc]
      simp
    refine ⟨by rw [hrun], by rw [hrun]; simp, by rw [hrun], by rw [hrun]; rfl⟩
  · intro s t m
    exact ⟨rfl, rfl⟩

/-- C4 (witness): three feeds at instants 0, 600, 1100 (gaps 600 and 500,
both below the 1000 ms threshold) coalesce into a single flush. -/
theorem debounce_coalescing_witness :
    ((runFeeds [(0, str "A"), (600, str "B"), (1100, str "C")]).flushes = 0 ∧
     (runFeeds [(0, str "A"), (600, str "B"), (1100, str "C")]).buffer =
       ([(0, str "A"), (600, str "B"), (1100, str "C")] : List (Nat × Str)).map Prod.snd ∧
     (runFeeds [(0, str "A"), (600, str "B"), (1100, str "C")]).timer =
       some (lastInstant 0 [(600, str "B"), (1100, str "C")] + quietMs) ∧
     (settle (runFeeds [(0, str "A"), (600, str "B"), (1100, str "C")])).flushes = 1) ∧
    ((checkForTikzError ⟨[], none, 0⟩ 0 (str "A")).buffer =
       (advanceTo ⟨[], none, 0⟩ 0).buffer ++ [str "A"] ∧
     (checkForTikzError ⟨[], none, 0⟩ 0 (str "A")).timer = some (0 + quietMs)) :=
  ⟨debounce_coalescing.1 0 (str "A") [(600, str "B"), (1100, str "C")]
     (by norm_num [List.chain'_cons, List.chain'_singleton, quietMs]),
   debounce_coalescing.2 ⟨[], none, 0⟩ 0 (str "A")⟩

/-- When the pattern occurs nowhere, `removeAllFuel` is the identity. -/
theorem removeAllFuel_of_not_occurs (pat : Str) :
    ∀ (fuel : Nat) (l : Str), occurs pat l = false → removeAllFuel pat fuel l = l := by
  intro fuel
  induction fuel with
  | zero => intro l _; cases l <;> rfl
  | succ n ih =>
    intro l h
    cases l with
    | nil => rfl
    | cons c rest =>
      rw [occurs, Bool.or_eq_false_iff] at h
      rw [removeAllFuel, if_neg (by simp [h.1]), ih rest h.2]

/-- When the pattern occurs nowhere, `replaceAll(pat, "")` is the identity. -/
theorem removeAll_of_not_occurs {pat l : Str} (h : occurs pat l = false) :
    removeAll pat l = l := removeAllFuel_of_not_occurs pat l.length l h

/-- The head of a `dropWhile` result fails the predicate. -/
theorem head_dropWhile_false {α : Type} (p : α → Bool) :
    ∀ (l : List α), ∀ c ∈ (l.dropWhile p).head?, p c = false := by
  intro l
  induction l with
  | nil => intro c hc; simp at hc
  | cons a as ih =>
    intro c hc
    rw [List.dropWhile_cons] at hc
    by_cases ha : p a
    · exact ih c (by simpa [ha] using hc)
    · have hac : (a :: as).head? = some c := by simpa [ha] using hc
      rw [List.head?_cons, Option.some.injEq] at hac
      rw [← hac]
      simpa using ha

/-- Function `dropWhile` is the identity when the head fails the predicate. -/
theorem dropWhile_eq_self_of_head {α : Type} (p : α → Bool) (l : List α)
    (h : ∀ c ∈ l.head?, p c = false) : l.dropWhile p = l := by
  cases l with
  | nil => rfl
  | cons a as =>
    have := h a rfl
    rw [List.dropWhile_cons, this]
    simp

/-- A nonempty `dropWhile` result keeps the last element. -/
theorem getLast?_dropWhile {α : Type} (p : α → Bool) :
    ∀ (l : List α), l.dropWhile p ≠ [] → (l.dropWhile p).getLast? = l.getLast? := by
  intro l
  induction l with
  | nil => intro h; simp at h
  | cons a as ih =>
    intro h
    rw [List.dropWhile_cons] at h ⊢
    by_cases ha : p a
    · simp only [ha, if_true] at h ⊢
      rw [ih h]
      cases as with
      | nil => simp at h
      | cons b bs => rw [List.getLast?_cons_cons]
    · simp [ha]

/-- Trimming is idempotent. -/
theorem trimChars_trimChars (l : Str) : trimChars (trimChars l) = trimChars l := by
  unfold trimChars
  cases hX : (l.dropWhile isWsChar).reverse.dropWhile isWsChar with
  | nil => simp
  | cons a as =>
    rw [← hX]
    have hne : (l.dropWhile isWsChar).reverse.dropWhile isWsChar ≠ [] := by
      rw [hX]; exact List.cons_ne_nil a as
    have hhead : ∀ c ∈ ((l.dropWhile isWsChar).reverse.dropWhile isWsChar).reverse.head?,
        isWsChar c = false := by
      intro c hc
      rw [List.head?_reverse, getLast?_dropWhile isWsChar _ hne,
        List.getLast?_reverse] at hc
      exact head_dropWhile_false isWsChar _ c hc
    rw [dropWhile_eq_self_of_head isWsChar _ hhead, List.reverse_reverse,
      dropWhile_eq_self_of_head isWsChar _ (head_dropWhile_false isWsChar _)]

/-- Trimming only keeps characters of the line. -/
theorem mem_trimChars {c : Char} {l : Str} (h : c ∈ trimChars l) : c ∈ l := by
  unfold trimChars at h
  rw [List.mem_reverse] at h
  have h₁ := (List.dropWhile_sublist isWsChar).mem h
  rw [List.mem_reverse] at h₁
  exact (List.dropWhile_sublist isWsChar).mem h₁

/-- The pieces of a newline split contain no newline. -/
theorem mem_splitOnNl_no_nl :
    ∀ (s : Str), ∀ l ∈ splitOnNl s, '\n' ∉ l := by
  intro s
  induction s with
  | nil =>
    intro l hl
    simp only [splitOnNl, List.mem_singleton] at hl
    simp [hl]
  | cons c rest ih =>
    intro l hl
    rw [splitOnNl] at hl
    by_cases hc : c = '\n'
    · simp only [hc, if_true, List.mem_cons] at hl
      rcases hl with h | h
      · simp [h]
      · exact ih l h
    · simp only [hc, if_false] at hl
      cases hsp : splitOnNl rest with
      | nil =>
        rw [hsp] at hl; simp at hl; simp only [hl, List.mem_singleton]
        exact fun hh => hc hh.symm
      | cons m ms =>
        rw [hsp, List.mem_cons] at hl
        rcases hl with h | h
        · subst h
          intro hmem
          rcases List.mem_cons.mp hmem with h | h
          · exact hc h.symm
          · exact ih m (hsp ▸ List.mem_cons_self m ms) h
        · exact ih l (hsp ▸ List.mem_cons.mpr (Or.inr h))

/-- A newline-free text splits into itself alone. -/
theorem splitOnNl_no_nl : ∀ (l : Str), '\n' ∉ l → splitOnNl l = [l] := by
  intro l
  induction l with
  | nil => intro _; rfl
  | cons c rest ih =>
    intro h
    have hc : ¬c = '\n' := fun hcc => h (by simp [hcc])
    rw [splitOnNl, if_neg hc, ih (fun hm => h (List.mem_cons.mpr (Or.inr hm)))]

/-- Splitting after a newline-free piece peels it off. -/
theorem splitOnNl_append_nl :
    ∀ (l rest : Str), '\n' ∉ l →
      splitOnNl (l ++ '\n' :: rest) = l :: splitOnNl rest := by
  intro l
  induction l with
  | nil => intro rest _; rw [List.nil_append, splitOnNl, if_pos rfl]
  | cons c cs ih =>
    intro rest h
    have hc : ¬c = '\n' := fun hcc => h (by simp [hcc])
    rw [List.cons_append, splitOnNl, if_neg hc,
      ih rest (fun hm => h (List.mem_cons.mpr (Or.inr hm)))]

/-- Splitting undoes joining for nonempty lists of newline-free lines. -/
theorem splitOnNl_joinNl :
    ∀ (L : List Str), (∀ l ∈ L, '\n' ∉ l) → L ≠ [] → splitOnNl (joinNl L) = L := by
  intro L
  induction L with
  | nil => intro _ h; exact absurd rfl h
  | cons l ls ih =>
    intro h _
    cases ls with
    | nil => exact splitOnNl_no_nl l (h l (by simp))
    | cons l₂ ls₂ =>
      rw [joinNl, splitOnNl_append_nl _ _ (h l (by simp)),
        ih (fun x hx => h x (List.mem_cons.mpr (Or.inr hx))) (List.cons_ne_nil l₂ ls₂)]

/-- Trimming and empty-dropping fix a list of already trimmed nonempty
lines. -/
theorem map_trim_filter_id :
    ∀ (L : List Str), (∀ l ∈ L, trimChars l = l ∧ l.isEmpty = false) →
      (L.map trimChars).filter (fun l => !l.isEmpty) = L := by
  intro L
  induction L with
  | nil => intro _; rfl
  | cons l ls ih =>
    intro h
    obtain ⟨ht, he⟩ := h l (by simp)
    rw [List.map_cons, List.filter_cons, ht]
    simp only [he, Bool.not_false, if_true]
    rw [ih (fun x hx => h x (List.mem_cons.mpr (Or.inr hx)))]

/-- The normalization pipeline fixes the joined form of a nonempty list of
trimmed, nonempty, newline-free lines. -/
theorem normLines_joinNl (L : List Str)
    (h : ∀ l ∈ L, trimChars l = l ∧ l.isEmpty = false ∧ '\n' ∉ l)
    (hne : L ≠ []) : normLines (joinNl L) = L := by
  unfold normLines
  rw [splitOnNl_joinNl L (fun l hl => (h l hl).2.2) hne,
    map_trim_filter_id L (fun l hl => ⟨(h l hl).1, (h l hl).2.1⟩)]

/-- Every line produced by the normalization pipeline is trimmed, nonempty
and newline-free. -/
theorem mem_normLines {l : Str} {s : Str} (h : l ∈ normLines s) :
    trimChars l = l ∧ l.isEmpty = false ∧ '\n' ∉ l := by
  unfold normLines at h
  rw [List.mem_filter] at h
  obtain ⟨hmap, hfilt⟩ := h
  rw [List.mem_map] at hmap
  obtain ⟨a, ha, rfl⟩ := hmap
  refine ⟨trimChars_trimChars a, by simpa using hfilt, ?_⟩
  intro hnl
  exact mem_splitOnNl_no_nl s a ha (mem_trimChars hnl)

/-- C8 (counterexample): normalization is not idempotent: removing `&nbsp;`
from `"&nbs&nbsp;p;"` in one left-to-right pass creates a fresh `&nbsp;`
occurrence that the first normalization keeps, and a second normalization
removes, yielding the empty text instead. -/
theorem normalize_not_idempotent_cex :
    tidyTikzSource (tidyTikzSource (str "&nbs&nbsp;p;") []) [] ≠
      tidyTikzSource (str "&nbs&nbsp;p;") [] := by decide

/-- C8 (amended): normalization is idempotent on every input whose
normalized form contains no occurrence of the `&nbsp;` escape sequence
(removal cannot create a new occurrence there, and the remaining steps fix
trimmed, nonempty, newline-free lines). -/
theorem normalize_idempotent_no_new_nbsp (x : Str)
    (h : occurs nbspSeq (tidyTikzSource x []) = false) :
    tidyTikzSource (tidyTikzSource x []) [] = tidyTikzSource x [] := by
  have hnorm : ∀ y : Str, tidyTikzSource y [] = joinNl (normLines (removeAll nbspSeq y)) :=
    fun y => rfl
  rw [hnorm x] at h ⊢
  rw [hnorm (joinNl (normLines (removeAll nbspSeq x))),
    removeAll_of_not_occurs h]
  cases hL : normLines (removeAll nbspSeq x) with
  | nil => rfl
  | cons l ls =>
    rw [← hL]
    have hprops : ∀ m ∈ normLines (removeAll nbspSeq x),
        trimChars m = m ∧ m.isEmpty = false ∧ '\n' ∉ m :=
      fun m hm => mem_normLines hm
    rw [normLines_joinNl _ hprops (by rw [hL]; simp)]

/-- C8 (witness for the amended theorem): a text with stray whitespace and
blank lines, but no `&nbsp;` in its normalized form, normalizes to a fixed
point. -/
theorem normalize_idempotent_no_new_nbsp_witness :
    tidyTikzSource (tidyTikzSource (str "  a x\n\n b ") []) [] =
      tidyTikzSource (str "  a x\n\n b ") [] :=
  normalize_idempotent_no_new_nbsp (str "  a x\n\n b ") (by decide)

/-- C10: if the flush fires while no current render target element is set,
it returns without producing any report and without clearing the log
buffer, whatever the buffer contains. -/
theorem flush_without_target_is_noop (buffer : List Str) :
    showBufferedLogs buffer false = (none, buffer) := by
  unfold showBufferedLogs
  simp
